import Mathlib

/-!
Verification of the scoped/jailed stable-index vector wrapper
(`src/jailed.rs`) of the `stable-vec` crate.

The file has two layers, mirroring the system overview of the spec:

* `StableVec` — the backing container. Its operations (`push`, `pop`,
  `remove`, `num_elements`, `is_compact`, `make_compact`, `into_vec`,
  slot indexing) are *not* part of `src/`; they are modelled from the
  spec (sections 3, 4.2 and 6). A container is a list of optional
  slots; the backing indexing operation panics on a vacant slot, which
  the model renders as `none`.

* `JailedStableVec` — the scope guard, translated from
  `src/jailed.rs` lines 74-131. A guard is an exclusive borrow of one
  `StableVec`, so in the state-passing embedding its operations act
  directly on the `StableVec` state, delegating exactly as the Rust
  code does.
-/

/-- Modelled from the spec: the Backing Container of section 3 —
"an ordered collection of optional element slots (a slot is either
occupied by one element of type T or empty/tombstoned)". The backing
container type lives in the crate root, outside `src/`. -/
structure StableVec (T : Type) where
  slots : List (Option T)

namespace StableVec

/-- Modelled from the spec: "created empty". -/
def new (T : Type) : StableVec T :=
  ⟨[]⟩

/-- Modelled from the spec: `push(value) -> slot` — "grows by push
(appends an occupied slot)"; the returned slot is the position of the
newly appended element. -/
def push (sv : StableVec T) (v : T) : StableVec T × Nat :=
  (⟨sv.slots ++ [some v]⟩, sv.slots.length)

/-- Modelled from the spec: reading one slot of the container. Slot
indexing (consumed by the guard's `Index`/`IndexMut` impls) panics on
a vacant or out-of-range slot; the model renders the panic as `none`. -/
def get (sv : StableVec T) (i : Nat) : Option T :=
  sv.slots.getD i none

/-- Modelled from the spec: `remove(slot) -> Optional<value>` —
"shrinks logically by remove (tombstones a slot)"; removing a vacant
slot is a tolerated no-op that returns nothing. -/
def remove (sv : StableVec T) (i : Nat) : StableVec T × Option T :=
  match sv.get i with
  | some v => (⟨sv.slots.set i none⟩, some v)
  | none => (sv, none)

/-- Modelled from the spec: helper for `pop` — locates the trailing
occupied slot; removing it also drops the vacant slots behind it, so
the result is the storage up to (not including) that slot, paired with
the removed value. Returns `none` when no slot is occupied. -/
def popSlots : List (Option T) → Option (List (Option T) × T)
  | [] => none
  | x :: xs =>
    match popSlots xs with
    | some (ys, v) => some (x :: ys, v)
    | none =>
      match x with
      | some v => some ([], v)
      | none => none

/-- Modelled from the spec: `pop() -> Optional<value>` — "removes the
trailing slot if the container is non-empty, returning its value;
... Returns nothing if the container is empty." -/
def pop (sv : StableVec T) : StableVec T × Option T :=
  match popSlots sv.slots with
  | some (ys, v) => (⟨ys⟩, some v)
  | none => (sv, none)

/-- Modelled from the spec: `num_elements` — "count of occupied slots". -/
def num_elements (sv : StableVec T) : Nat :=
  (sv.slots.filterMap id).length

/-- Modelled from the spec: `is_compact` — "returns whether the wrapped
container currently has zero tombstones (`len(slots) == num_elements`)". -/
def is_compact (sv : StableVec T) : Bool :=
  sv.num_elements == sv.slots.length

/-- Modelled from the spec: `compact()` (the crate's `make_compact`) —
"removes tombstones, preserving relative order of survivors". -/
def make_compact (sv : StableVec T) : StableVec T :=
  ⟨(sv.slots.filterMap id).map some⟩

/-- Modelled from the spec: `into_underlying_sequence` (the crate's
`into_vec`) — "drains the container into a plain ordered sequence of T". -/
def into_vec (sv : StableVec T) : List T :=
  sv.slots.filterMap id

/-- The slot named by `i` currently holds an element. -/
def occupied (sv : StableVec T) (i : Nat) : Bool :=
  (sv.get i).isSome

end StableVec

/-- `src/jailed.rs` lines 127-131: `pub struct Index<'a> { idx: usize,
_marker: PhantomData<&'a ()> }`. The lifetime tag `_marker` is a
zero-sized compile-time-only marker with no runtime payload, so the
embedded token carries only the slot number. -/
structure Index where
  idx : Nat

namespace Index

/-- `src/jailed.rs` line 127: the derive list on `Index`,
`#[derive(Clone, Copy)]`. No other trait impl for `Index` appears in
the file. -/
def derives : List String :=
  ["Clone", "Copy"]

/-- `src/jailed.rs` lines 128-130: both fields of `Index` (`idx` and
`_marker`) are declared without `pub`, so the list of public fields is
empty. -/
def publicFields : List String :=
  []

end Index

namespace JailedStableVec

/-- `src/jailed.rs` lines 83-86: `push` delegates to the backing
container's `push` and wraps the returned slot in an `Index` token. -/
def push (s : StableVec T) (v : T) : StableVec T × Index :=
  ((s.push v).1, ⟨(s.push v).2⟩)

/-- `src/jailed.rs` lines 88-90: `pop` delegates to the backing `pop`. -/
def pop (s : StableVec T) : StableVec T × Option T :=
  s.pop

/-- `src/jailed.rs` lines 92-94: `remove` delegates to the backing
`remove` at the token's slot. -/
def remove (s : StableVec T) (tok : Index) : StableVec T × Option T :=
  s.remove tok.idx

/-- `src/jailed.rs` lines 96-98: `is_compact` delegates to the backing
container. -/
def is_compact (s : StableVec T) : Bool :=
  s.is_compact

/-- `src/jailed.rs` lines 100-102: `num_elements` delegates to the
backing container. -/
def num_elements (s : StableVec T) : Nat :=
  s.num_elements

/-- `src/jailed.rs` lines 112-118: the `Index` impl returns
`&self.0[index.idx]`; the backing indexing panics on a vacant slot
(the `should_panic` doctest at lines 49-62 exercises exactly this),
which the model renders as `none`. -/
def lookup (s : StableVec T) (tok : Index) : Option T :=
  s.get tok.idx

/-- `src/jailed.rs` lines 120-125: the `IndexMut` impl reads the same
slot as `Index`, returning `&mut self.0[index.idx]`; the observable
value behind the returned reference is the slot's occupant. -/
def lookup_mut (s : StableVec T) (tok : Index) : Option T :=
  s.get tok.idx

end JailedStableVec

/-- One operation performed through an open scope guard
(spec section 4.1: `insert`, `remove(token)`, `remove_last`). -/
inductive Op (T : Type) where
  | insert (v : T)
  | remove (tok : Index)
  | removeLast

/-- The state reached after one guard operation. -/
def stepOp (s : StableVec T) : Op T → StableVec T
  | .insert v => (JailedStableVec.push s v).1
  | .remove tok => (JailedStableVec.remove s tok).1
  | .removeLast => (JailedStableVec.pop s).1

/-- The state reached after a sequence of guard operations. -/
def run (s : StableVec T) : List (Op T) → StableVec T
  | [] => s
  | op :: ops => run (stepOp s op) ops

/-- The number of `insert` calls in a sequence of guard operations. -/
def numInserts : List (Op T) → Nat
  | [] => 0
  | .insert _ :: ops => numInserts ops + 1
  | _ :: ops => numInserts ops

/-- Whether one guard operation, performed in state `s`, is a
successful removal: a `remove` that returns a value or a
`remove_last` that returns a value. -/
def isSuccessfulRemoval (s : StableVec T) : Op T → Bool
  | .insert _ => false
  | .remove tok => (JailedStableVec.remove s tok).2.isSome
  | .removeLast => (JailedStableVec.pop s).2.isSome

/-- The number of successful removals along a run. -/
def successfulRemovals (s : StableVec T) : List (Op T) → Nat
  | [] => 0
  | op :: ops =>
    (if isSuccessfulRemoval s op then 1 else 0) + successfulRemovals (stepOp s op) ops

/-- The slot the trailing-removal (`pop`) would take from state `s`,
if any. -/
def lastSlot (s : StableVec T) : Option Nat :=
  (StableVec.popSlots s.slots).map (fun r => r.1.length)

/-- Whether one guard operation, performed in state `s`, removes the
slot numbered `i`: a `remove` of a token naming an occupied slot `i`,
or a `remove_last` whose trailing occupied slot is `i`. -/
def removesSlot (s : StableVec T) (i : Nat) : Op T → Bool
  | .insert _ => false
  | .remove tok => tok.idx == i && StableVec.occupied s i
  | .removeLast => lastSlot s == some i

/-- No operation along the run removes slot `i`. -/
def noRemoveAlong (i : Nat) : StableVec T → List (Op T) → Prop
  | _, [] => True
  | s, op :: ops => removesSlot s i op = false ∧ noRemoveAlong i (stepOp s op) ops

/-- Whether a guard operation is an `insert`. -/
def isInsert : Op T → Bool
  | .insert _ => true
  | _ => false

/-- The doctest scenario from `src/jailed.rs` lines 13-28, one round:
jail the vector, push 1 and push 2, look both tokens up and sum the
results, remove the first token, drop the guard (no runtime effect),
then `make_compact`. Returns the compacted container and the observed
sum; the sum is `none` when a lookup hits a vacant slot (a panic). -/
def scenarioRound (s : StableVec Nat) : StableVec Nat × Option Nat :=
  let r1 := JailedStableVec.push s 1
  let r2 := JailedStableVec.push r1.1 2
  let sum := (JailedStableVec.lookup r2.1 r1.2).bind
    (fun a => (JailedStableVec.lookup r2.1 r2.2).map (fun b => a + b))
  let s3 := (JailedStableVec.remove r2.1 r1.2).1
  (StableVec.make_compact s3, sum)

/-! ### Helper lemmas about the backing container -/

theorem StableVec.get_some_lt {sv : StableVec T} {i : Nat} {v : T}
    (h : sv.get i = some v) : i < sv.slots.length := by
  by_contra hge
  rw [StableVec.get, List.getD_eq_getElem?_getD,
    List.getElem?_eq_none (Nat.le_of_not_lt hge)] at h
  simp at h

theorem StableVec.get_some_getElem? {sv : StableVec T} {i : Nat} {v : T}
    (h : sv.get i = some v) : sv.slots[i]? = some (some v) := by
  rw [StableVec.get, List.getD_eq_getElem?_getD] at h
  cases he : sv.slots[i]? with
  | none => rw [he] at h; simp at h
  | some o => rw [he] at h; simp at h; rw [h]

theorem StableVec.get_of_getElem? {sv : StableVec T} {i : Nat} {o : Option T}
    (h : sv.slots[i]? = some o) : sv.get i = o := by
  rw [StableVec.get, List.getD_eq_getElem?_getD, h, Option.getD_some]

theorem StableVec.filterMap_of_all_none {tr : List (Option T)}
    (h : ∀ o ∈ tr, o = none) : tr.filterMap id = [] := by
  rw [List.filterMap_eq_nil_iff]
  intro a ha
  exact h a ha

theorem StableVec.popSlots_cons (x : Option T) (t : List (Option T)) :
    StableVec.popSlots (x :: t) =
      match StableVec.popSlots t with
      | some (ys, v) => some (x :: ys, v)
      | none =>
        match x with
        | some v => some ([], v)
        | none => none :=
  rfl

theorem StableVec.popSlots_eq_none {xs : List (Option T)}
    (h : StableVec.popSlots xs = none) : ∀ o ∈ xs, o = none := by
  induction xs with
  | nil => intro o ho; simp at ho
  | cons x t ih =>
    rw [StableVec.popSlots_cons] at h
    cases hp : StableVec.popSlots t with
    | some r => rw [hp] at h; simp at h
    | none =>
      rw [hp] at h
      cases x with
      | some v => simp at h
      | none =>
        intro o ho
        cases ho with
        | head => rfl
        | tail _ hmem => exact ih hp o hmem

theorem StableVec.popSlots_eq_some {xs ys : List (Option T)} {v : T}
    (h : StableVec.popSlots xs = some (ys, v)) :
    ∃ tr, xs = ys ++ some v :: tr ∧ ∀ o ∈ tr, o = none := by
  induction xs generalizing ys with
  | nil => rw [StableVec.popSlots] at h; simp at h
  | cons x t ih =>
    rw [StableVec.popSlots_cons] at h
    cases hp : StableVec.popSlots t with
    | some r =>
      obtain ⟨ys', v'⟩ := r
      rw [hp] at h
      simp only [Option.some.injEq, Prod.mk.injEq] at h
      obtain ⟨hys, hv⟩ := h
      subst hv
      obtain ⟨tr, ht, htr⟩ := ih hp
      refine ⟨tr, ?_, htr⟩
      rw [← hys, ht]
      simp
    | none =>
      rw [hp] at h
      cases x with
      | some w =>
        simp only [Option.some.injEq, Prod.mk.injEq] at h
        obtain ⟨hys, hv⟩ := h
        subst hv
        refine ⟨t, ?_, StableVec.popSlots_eq_none hp⟩
        rw [← hys]
        simp
      | none => simp at h

theorem StableVec.get_append_of_lt {l l2 : List (Option T)} {i : Nat}
    (h : i < l.length) : StableVec.get ⟨l ++ l2⟩ i = StableVec.get ⟨l⟩ i := by
  rw [StableVec.get, StableVec.get, List.getD_eq_getElem?_getD,
    List.getD_eq_getElem?_getD, List.getElem?_append_left h]

theorem StableVec.get_set_none_of_ne {l : List (Option T)} {i j : Nat}
    (h : i ≠ j) : StableVec.get ⟨l.set i none⟩ j = StableVec.get ⟨l⟩ j := by
  rw [StableVec.get, StableVec.get, List.getD_eq_getElem?_getD,
    List.getD_eq_getElem?_getD, List.getElem?_set_ne h]

theorem StableVec.get_set_none_self {l : List (Option T)} {i : Nat} :
    StableVec.get ⟨l.set i none⟩ i = none := by
  rcases Nat.lt_or_ge i l.length with hlt | hge
  · rw [StableVec.get, List.getD_eq_getElem?_getD, List.getElem?_set_self hlt]
    rfl
  · rw [StableVec.get, List.getD_eq_getElem?_getD,
      List.getElem?_eq_none (by simpa using hge)]
    rfl

theorem StableVec.get_of_append_all_none {ys tr : List (Option T)} {i : Nat} {v w : T}
    (hall : ∀ o ∈ tr, o = none)
    (hget : StableVec.get ⟨ys ++ some w :: tr⟩ i = some v)
    (hne : i ≠ ys.length) : i < ys.length := by
  rcases Nat.lt_or_ge i ys.length with hlt | hge
  · exact hlt
  · exfalso
    have hgt : ys.length < i := Nat.lt_of_le_of_ne hge (fun he => hne he.symm)
    rw [StableVec.get, List.getD_eq_getElem?_getD, List.getElem?_append_right hge] at hget
    rcases Nat.exists_eq_add_of_lt hgt with ⟨k, hk⟩
    rw [hk] at hget
    have hidx : ys.length + k + 1 - ys.length = k + 1 := by omega
    rw [hidx] at hget
    simp only [List.getElem?_cons_succ] at hget
    cases htr : tr[k]? with
    | none => rw [htr] at hget; simp at hget
    | some o =>
      rw [htr] at hget
      have : o = none := hall o (List.getElem?_mem htr)
      rw [this] at hget
      simp at hget

theorem StableVec.num_elements_push (s : StableVec T) (v : T) :
    StableVec.num_elements ⟨s.slots ++ [some v]⟩ = s.num_elements + 1 := by
  rw [StableVec.num_elements, StableVec.num_elements, List.filterMap_append]
  simp

theorem StableVec.num_elements_set_none {s : StableVec T} {i : Nat} {v : T}
    (h : s.get i = some v) :
    StableVec.num_elements ⟨s.slots.set i none⟩ + 1 = s.num_elements := by
  obtain ⟨l⟩ := s
  rw [StableVec.get] at h
  induction l generalizing i with
  | nil => simp at h
  | cons x t ih =>
    cases i with
    | zero =>
      rw [List.getD_cons_zero] at h
      subst h
      simp [StableVec.num_elements, List.filterMap_cons]
    | succ n =>
      rw [List.getD_cons_succ] at h
      have hrec := ih h
      cases x with
      | none =>
        simpa [StableVec.num_elements, List.filterMap_cons] using hrec
      | some w =>
        simp only [StableVec.num_elements, List.set_cons_succ, List.filterMap_cons] at hrec ⊢
        simpa using hrec

theorem StableVec.num_elements_append_all_none {ys tr : List (Option T)} {v : T}
    (hall : ∀ o ∈ tr, o = none) :
    StableVec.num_elements ⟨ys ++ some v :: tr⟩ =
      StableVec.num_elements ⟨ys⟩ + 1 := by
  rw [StableVec.num_elements, StableVec.num_elements, List.filterMap_append,
    List.filterMap_cons]
  simp [StableVec.filterMap_of_all_none hall]

theorem StableVec.remove_get_some {sv : StableVec T} {i : Nat} {v : T}
    (h : sv.get i = some v) :
    sv.remove i = (⟨sv.slots.set i none⟩, some v) := by
  rw [StableVec.remove, h]

theorem StableVec.remove_get_none {sv : StableVec T} {i : Nat}
    (h : sv.get i = none) : sv.remove i = (sv, none) := by
  rw [StableVec.remove, h]

theorem StableVec.pop_eq_of_popSlots_some {sv : StableVec T} {ys : List (Option T)} {v : T}
    (h : StableVec.popSlots sv.slots = some (ys, v)) : sv.pop = (⟨ys⟩, some v) := by
  rw [StableVec.pop, h]

theorem StableVec.pop_eq_of_popSlots_none {sv : StableVec T}
    (h : StableVec.popSlots sv.slots = none) : sv.pop = (sv, none) := by
  rw [StableVec.pop, h]

theorem StableVec.get_remove_self (s : StableVec T) (i : Nat) :
    StableVec.get (s.remove i).1 i = none := by
  cases hg : s.get i with
  | none => rw [StableVec.remove_get_none hg]; exact hg
  | some w => rw [StableVec.remove_get_some hg]; exact StableVec.get_set_none_self

theorem get_push_new (s : StableVec T) (v : T) :
    StableVec.get (JailedStableVec.push s v).1 (JailedStableVec.push s v).2.idx = some v := by
  show StableVec.get ⟨s.slots ++ [some v]⟩ s.slots.length = some v
  rw [StableVec.get, List.getD_eq_getElem?_getD, List.getElem?_concat_length]
  rfl

theorem get_stepOp_preserved {s : StableVec T} {i : Nat} {v : T} {op : Op T}
    (hget : s.get i = some v) (hno : removesSlot s i op = false) :
    (stepOp s op).get i = some v := by
  cases op with
  | insert w =>
    show StableVec.get ⟨s.slots ++ [some w]⟩ i = some v
    rw [StableVec.get_append_of_lt (StableVec.get_some_lt hget)]
    exact hget
  | remove tok =>
    have hocc : StableVec.occupied s i = true := by
      rw [StableVec.occupied, hget]; rfl
    simp only [removesSlot, hocc, Bool.and_true, beq_eq_false_iff_ne] at hno
    show StableVec.get (s.remove tok.idx).1 i = some v
    cases hg : s.get tok.idx with
    | none => rw [StableVec.remove_get_none hg]; exact hget
    | some w =>
      rw [StableVec.remove_get_some hg]
      rw [StableVec.get_set_none_of_ne hno]
      exact hget
  | removeLast =>
    show StableVec.get (s.pop).1 i = some v
    cases hp : StableVec.popSlots s.slots with
    | none =>
      rw [StableVec.pop_eq_of_popSlots_none hp]
      exact hget
    | some r =>
      obtain ⟨ys, w⟩ := r
      have hno' : ¬ys.length = i := by
        simp only [removesSlot, lastSlot, hp, Option.map_some] at hno
        simpa using hno
      obtain ⟨tr, ht, htr⟩ := StableVec.popSlots_eq_some hp
      have hgets : StableVec.get ⟨ys ++ some w :: tr⟩ i = some v := by
        rw [← ht]; exact hget
      have hlt : i < ys.length :=
        StableVec.get_of_append_all_none htr hgets (fun he => hno' he.symm)
      rw [StableVec.pop_eq_of_popSlots_some hp]
      rw [← @StableVec.get_append_of_lt T ys (some w :: tr) i hlt]
      exact hgets

theorem get_run_preserved {i : Nat} {v : T} :
    ∀ (ops : List (Op T)) (s : StableVec T),
      s.get i = some v → noRemoveAlong i s ops → (run s ops).get i = some v := by
  intro ops
  induction ops with
  | nil => intro s hget _; exact hget
  | cons op ops ih =>
    intro s hget hno
    obtain ⟨h1, h2⟩ := hno
    exact ih (stepOp s op) (get_stepOp_preserved hget h1) h2

/-- C1: within one scope, for every sequence of `insert`/`remove`/
`remove_last` operations, a token returned by `insert` resolves via
lookup to exactly the value passed to that `insert`, as long as no
operation along the way removes that token's slot. -/
theorem insert_lookup_roundtrip (s : StableVec T) (v : T) (ops : List (Op T))
    (h : noRemoveAlong (JailedStableVec.push s v).2.idx (JailedStableVec.push s v).1 ops) :
    JailedStableVec.lookup (run (JailedStableVec.push s v).1 ops)
      (JailedStableVec.push s v).2 = some v :=
  get_run_preserved ops _ (get_push_new s v) h

/-- C1 witness: pushing 5 into an empty vector, then inserting 7 and
removing the trailing element, still looks up 5 through the original
token. -/
theorem insert_lookup_roundtrip_witness :
    noRemoveAlong (JailedStableVec.push (StableVec.new Nat) 5).2.idx
      (JailedStableVec.push (StableVec.new Nat) 5).1 [Op.insert 7, Op.removeLast] ∧
    JailedStableVec.lookup
      (run (JailedStableVec.push (StableVec.new Nat) 5).1 [Op.insert 7, Op.removeLast])
      (JailedStableVec.push (StableVec.new Nat) 5).2 = some 5 :=
  ⟨⟨by decide, by decide, trivial⟩,
    insert_lookup_roundtrip (StableVec.new Nat) 5 [Op.insert 7, Op.removeLast]
      ⟨by decide, by decide, trivial⟩⟩

/-- C3: presenting a token whose slot is currently vacant to the
guard's indexing (`lookup`) or mutable indexing (`lookup_mut`) never
silently yields another element's value: the backing indexing panics,
rendered as `none` in the model. -/
theorem lookup_vacant_fails_loudly (s : StableVec T) (tok : Index)
    (h : s.get tok.idx = none) :
    JailedStableVec.lookup s tok = none ∧ JailedStableVec.lookup_mut s tok = none :=
  ⟨h, h⟩

/-- C3 witness: on `[some 3, none]`, a token for the tombstoned slot 1
is vacant and both lookups fail loudly. -/
theorem lookup_vacant_fails_loudly_witness :
    StableVec.get (⟨[some 3, none]⟩ : StableVec Nat) (Index.mk 1).idx = none ∧
    (JailedStableVec.lookup (⟨[some 3, none]⟩ : StableVec Nat) (Index.mk 1) = none ∧
      JailedStableVec.lookup_mut (⟨[some 3, none]⟩ : StableVec Nat) (Index.mk 1) = none) :=
  ⟨by decide, lookup_vacant_fails_loudly ⟨[some 3, none]⟩ (Index.mk 1) (by decide)⟩

/-- C4: once `remove(token)` has returned the removed value, a second
`remove(token)` returns nothing and leaves the value of every other
slot unchanged. -/
theorem remove_twice_returns_none (s : StableVec T) (tok : Index) (v : T)
    (h : (JailedStableVec.remove s tok).2 = some v) :
    (JailedStableVec.remove (JailedStableVec.remove s tok).1 tok).2 = none ∧
    ∀ j, j ≠ tok.idx →
      StableVec.get (JailedStableVec.remove (JailedStableVec.remove s tok).1 tok).1 j =
        StableVec.get (JailedStableVec.remove s tok).1 j := by
  have h2 : StableVec.get (JailedStableVec.remove s tok).1 tok.idx = none :=
    StableVec.get_remove_self s tok.idx
  have h3 : StableVec.remove (JailedStableVec.remove s tok).1 tok.idx =
      ((JailedStableVec.remove s tok).1, none) :=
    StableVec.remove_get_none h2
  constructor
  · show (StableVec.remove (JailedStableVec.remove s tok).1 tok.idx).2 = none
    rw [h3]
  · intro j _
    show StableVec.get (StableVec.remove (JailedStableVec.remove s tok).1 tok.idx).1 j = _
    rw [h3]

/-- C4 witness: removing slot 0 of `[some 4]` returns 4; removing it
again returns nothing and leaves slot 1 (and every other slot) as it
was. -/
theorem remove_twice_returns_none_witness :
    (JailedStableVec.remove (⟨[some 4]⟩ : StableVec Nat) (Index.mk 0)).2 = some 4 ∧
    ((JailedStableVec.remove
        (JailedStableVec.remove (⟨[some 4]⟩ : StableVec Nat) (Index.mk 0)).1
        (Index.mk 0)).2 = none ∧
      ∀ j, j ≠ (Index.mk 0).idx →
        StableVec.get
          (JailedStableVec.remove
            (JailedStableVec.remove (⟨[some 4]⟩ : StableVec Nat) (Index.mk 0)).1
            (Index.mk 0)).1 j =
        StableVec.get (JailedStableVec.remove (⟨[some 4]⟩ : StableVec Nat) (Index.mk 0)).1 j) :=
  ⟨by decide, remove_twice_returns_none ⟨[some 4]⟩ (Index.mk 0) 4 (by decide)⟩

theorem numInserts_cons (op : Op T) (ops : List (Op T)) :
    numInserts (op :: ops) = numInserts ops + (if isInsert op then 1 else 0) := by
  cases op <;> simp [numInserts, isInsert]

theorem num_elements_stepOp (s : StableVec T) (op : Op T) :
    StableVec.num_elements (stepOp s op) + (if isSuccessfulRemoval s op then 1 else 0) =
      s.num_elements + (if isInsert op then 1 else 0) := by
  cases op with
  | insert v =>
    show StableVec.num_elements ⟨s.slots ++ [some v]⟩ + (if false = true then 1 else 0) =
      s.num_elements + (if true = true then 1 else 0)
    rw [StableVec.num_elements_push]
    simp
  | remove tok =>
    show StableVec.num_elements (s.remove tok.idx).1 +
        (if (s.remove tok.idx).2.isSome then 1 else 0) =
      s.num_elements + (if false = true then 1 else 0)
    cases hg : s.get tok.idx with
    | none => rw [StableVec.remove_get_none hg]; simp
    | some w =>
      rw [StableVec.remove_get_some hg]
      simpa using StableVec.num_elements_set_none hg
  | removeLast =>
    show StableVec.num_elements (s.pop).1 + (if (s.pop).2.isSome then 1 else 0) =
      s.num_elements + (if false = true then 1 else 0)
    cases hp : StableVec.popSlots s.slots with
    | none => rw [StableVec.pop_eq_of_popSlots_none hp]; simp
    | some r =>
      obtain ⟨ys, v⟩ := r
      rw [StableVec.pop_eq_of_popSlots_some hp]
      obtain ⟨tr, ht, htr⟩ := StableVec.popSlots_eq_some hp
      have hnum : s.num_elements = StableVec.num_elements ⟨ys⟩ + 1 := by
        conv_lhs => rw [show s = ⟨s.slots⟩ from rfl, ht]
        exact StableVec.num_elements_append_all_none htr
      rw [hnum]
      simp

/-- C5 counterexample: the claim fails when the scope is opened over a
container that is already non-empty. Opening a scope over `[some 5]`
and performing one `insert` leaves two occupied slots, but the number
of inserts minus the number of successful removals is one. -/
theorem occupied_count_formula_fails :
    ¬ (StableVec.num_elements (run (⟨[some 5]⟩ : StableVec Nat) [Op.insert 7]) =
        numInserts [Op.insert 7] -
          successfulRemovals (⟨[some 5]⟩ : StableVec Nat) [Op.insert 7]) := by
  decide

/-- C5 (amended): at every point during a scope's lifetime,
`occupied_count()` equals the count at scope entry plus the number of
`insert` calls minus the number of successful removals (stated
additively to avoid truncated subtraction). -/
theorem occupied_count_conservation (s : StableVec T) (ops : List (Op T)) :
    StableVec.num_elements (run s ops) + successfulRemovals s ops =
      s.num_elements + numInserts ops := by
  induction ops generalizing s with
  | nil => rfl
  | cons op ops ih =>
    have h1 := ih (stepOp s op)
    have h2 := num_elements_stepOp s op
    show StableVec.num_elements (run (stepOp s op) ops) +
        ((if isSuccessfulRemoval s op then 1 else 0) + successfulRemovals (stepOp s op) ops) =
      s.num_elements + numInserts (op :: ops)
    rw [numInserts_cons op ops]
    omega

/-- C6: `insert(value)` always succeeds (it is a total function),
appends the value as a newly occupied slot, returns a token whose slot
is the new slot, and increases the number of occupied elements by
exactly one. -/
theorem insert_appends_new_slot (s : StableVec T) (v : T) :
    (JailedStableVec.push s v).1.slots = s.slots ++ [some v] ∧
    (JailedStableVec.push s v).2.idx = s.slots.length ∧
    StableVec.get (JailedStableVec.push s v).1 (JailedStableVec.push s v).2.idx = some v ∧
    StableVec.num_elements (JailedStableVec.push s v).1 = s.num_elements + 1 :=
  ⟨rfl, rfl, get_push_new s v, StableVec.num_elements_push s v⟩

/-- C7: starting from the empty container, one round of the doctest
scenario observes `lookup(A) + lookup(B) = 3` and drains to `[2]`
after order-preserving compaction; running the round a second time on
the resulting container again observes 3 and drains to `[2, 2]`. -/
theorem scenario_two_rounds :
    (scenarioRound (StableVec.new Nat)).2 = some 3 ∧
    StableVec.into_vec (scenarioRound (StableVec.new Nat)).1 = [2] ∧
    (scenarioRound (scenarioRound (StableVec.new Nat)).1).2 = some 3 ∧
    StableVec.into_vec (scenarioRound (scenarioRound (StableVec.new Nat)).1).1 = [2, 2] := by
  decide

/-- C8 counterexample: the claim says tokens "can be compared for
equality", but `Index` derives only `Clone` and `Copy`
(`src/jailed.rs` line 127); neither `PartialEq` nor `Eq` is derived or
implemented, so no equality comparison exists for tokens. -/
theorem token_equality_not_available :
    ¬ ("PartialEq" ∈ Index.derives ∨ "Eq" ∈ Index.derives) := by
  decide

/-- C8 (amended): scoped tokens are opaque (no public field) and
copyable (`Clone` and `Copy` are derived), but they cannot be compared
for equality: no equality trait is derived or implemented for
`Index`. -/
theorem token_opaque_and_copyable :
    "Clone" ∈ Index.derives ∧ "Copy" ∈ Index.derives ∧
    Index.publicFields = [] ∧ "PartialEq" ∉ Index.derives ∧ "Eq" ∉ Index.derives := by
  decide

/-- C9: every guard operation delegates unchanged to the corresponding
operation of the wrapped backing container, and the slot carried by
the token returned by the guard's `push` is exactly the slot returned
by the backing container's `push`. -/
theorem guard_delegates_to_container (s : StableVec T) (v : T) (tok : Index) :
    (JailedStableVec.push s v).1 = (s.push v).1 ∧
    (JailedStableVec.push s v).2.idx = (s.push v).2 ∧
    JailedStableVec.pop s = s.pop ∧
    JailedStableVec.remove s tok = s.remove tok.idx ∧
    JailedStableVec.num_elements s = s.num_elements ∧
    JailedStableVec.is_compact s = s.is_compact ∧
    JailedStableVec.lookup s tok = s.get tok.idx ∧
    JailedStableVec.lookup_mut s tok = s.get tok.idx :=
  ⟨rfl, rfl, rfl, rfl, rfl, rfl, rfl, rfl⟩

/-- C10: `remove(token)` does not consume or invalidate the token:
tokens are `Copy`, and after a `remove` the very same token may still
be presented to `remove`, `lookup`, or `lookup_mut` — the calls are
all defined, the second `remove` returns nothing, and both lookups hit
a vacant slot. Staleness after removal is not structurally prevented. -/
theorem remove_keeps_token_presentable (s : StableVec T) (tok : Index) :
    "Copy" ∈ Index.derives ∧
    (JailedStableVec.remove (JailedStableVec.remove s tok).1 tok).2 = none ∧
    JailedStableVec.lookup (JailedStableVec.remove s tok).1 tok = none ∧
    JailedStableVec.lookup_mut (JailedStableVec.remove s tok).1 tok = none := by
  refine ⟨by decide, ?_, StableVec.get_remove_self s tok.idx,
    StableVec.get_remove_self s tok.idx⟩
  show (StableVec.remove (StableVec.remove s tok.idx).1 tok.idx).2 = none
  rw [StableVec.remove_get_none (StableVec.get_remove_self s tok.idx)]
